import Mathlib

/-!
Shallow embedding of the CFG construction and lowering component in
`src/cfg_factory/method.rs` (the `CfgMethod` builder, `Successor` edges,
`CfgBlockIndex` tokens, and the `to_ast` lowering into the Viper-style
statement AST).

Modelling conventions:
* Rust `Uuid` becomes `Nat`: the only operation the code performs on it is
  equality, so any type with decidable equality is a faithful model.
* The Viper AST produced through `ast_factory` (an external construction
  facility: `Expr`, `Stmt`, `LocalVarDecl`, `Declaration`, `Method`) is
  modelled as plain inductive datatypes; each `ast_factory` call is a pure
  constructor application, which matches the factory's behaviour of building
  immutable AST nodes.
* Rust `char::is_alphabetic` / `is_alphanumeric` are modelled by
  `Char.isAlpha` / `Char.isAlphanum`; concrete inputs in witnesses and
  counterexamples use ASCII characters, on which the two coincide.
* A Rust `assert!`/panic (a fatal precondition failure, per the failure
  semantics of the builder) is modelled by returning `none`; mutating
  methods hence have type `... → Option CfgMethod`, where `some g` is the
  post-state of a successful call and `none` an aborted call, which in Rust
  leaves no usable builder behind.
* `to_ast` in Rust returns `Result` but its only exit is `Ok(method)`; the
  one internal operation that can abort is the `basic_block_labels[index]`
  indexing inside `index_to_label`, which panics when out of bounds.  The
  model makes that lookup explicit with `List.get?`, so `to_ast` returns
  `Option Method` where `some` corresponds to the Rust `Ok`.
-/

/-- Viper expressions, as produced by the external `ast_factory`.  The code
under study treats expressions opaquely except for `false_lit` (used to lower
`Unreachable`); `atom` stands for every other expression, indexed so that
distinct opaque expressions can be told apart and given truth values by an
environment. -/
inductive Expr where
  | falseLit : Expr
  | atom (n : Nat) : Expr
deriving DecidableEq, Repr

/-- Positions attached to assertions; the code only ever uses
`no_position`. -/
inductive Position where
  | noPosition : Position
deriving DecidableEq, Repr

/-- A local variable declaration (`LocalVarDecl` in the factory API).  The
code moves these around without inspecting them, so only an identity
matters. -/
structure LocalVarDecl where
  name : String
deriving DecidableEq, Repr

/-- Viper declarations: a `LocalVarDecl` converted via `.into()`, or a label
declaration obtained by converting a `label` statement via `.into()`. -/
inductive Declaration where
  | localVar (d : LocalVarDecl) : Declaration
  | labelDecl (name : String) (invs : List Expr) : Declaration
deriving DecidableEq, Repr

/-- Viper statements, covering exactly the factory calls the lowering makes:
`label`, `goto`, `assert`, `if_stmt` and `seqn`. -/
inductive Stmt where
  | label (name : String) (invs : List Expr) : Stmt
  | goto (target : String) : Stmt
  | assertStmt (e : Expr) (pos : Position) : Stmt
  | ifStmt (cond : Expr) (thn els : Stmt) : Stmt
  | seqn (stmts : List Stmt) (decls : List Declaration) : Stmt
  | opaqueStmt (n : Nat) : Stmt
deriving Repr

/-- A Viper method as produced by `ast_factory.method(name, formal_args,
formal_returns, pres, posts, body)`. -/
structure Method where
  name : String
  formalArgs : List LocalVarDecl
  formalReturns : List LocalVarDecl
  pres : List Expr
  posts : List Expr
  body : Option Stmt
deriving Repr

/-- `const RETURN_LABEL: &str = "return";` -/
def RETURN_LABEL : String := "return"

/-- `CfgBlockIndex { method_uuid, block_index }` — the graph-scoped token. -/
structure CfgBlockIndex where
  method_uuid : Nat
  block_index : Nat
deriving DecidableEq, Repr

/-- The `Successor` enum of the source. -/
inductive Successor where
  | unreachable : Successor
  | ret : Successor
  | goto (target : CfgBlockIndex) : Successor
  | gotoSwitch (successors : List (Expr × CfgBlockIndex)) (default_target : CfgBlockIndex) : Successor
  | gotoIf (test : Expr) (then_target else_target : CfgBlockIndex) : Successor
deriving Repr

/-- The `CfgBlock` struct of the source. -/
structure CfgBlock where
  invs : List Expr
  stmt : Stmt
  successor : Successor
deriving Repr

/-- The `CfgMethod` struct of the source (the `ast_factory` reference is not
part of the model: every factory call is a pure constructor). -/
structure CfgMethod where
  uuid : Nat
  method_name : String
  formal_args : List LocalVarDecl
  formal_returns : List LocalVarDecl
  local_vars : List LocalVarDecl
  basic_blocks : List CfgBlock
  basic_blocks_labels : List String
deriving Repr

namespace CfgMethod

/-- `CfgMethod::new` — the fresh `Uuid::new_v4()` becomes an explicit
argument, since the model only needs that distinct graphs carry distinct
identities. -/
def new (uuid : Nat) (method_name : String)
    (formal_args formal_returns local_vars : List LocalVarDecl) : CfgMethod :=
  { uuid := uuid
    method_name := method_name
    formal_args := formal_args
    formal_returns := formal_returns
    local_vars := local_vars
    basic_blocks := []
    basic_blocks_labels := [] }

/-- `CfgMethod::add_block`.  The four `assert!`s of the source become the
guard of the `if`; note the first check is `label.chars().take(1).all(..)`,
which is vacuously true on the empty string. -/
def add_block (g : CfgMethod) (label : String) (invs : List Expr) (stmt : Stmt) :
    Option (CfgMethod × CfgBlockIndex) :=
  if ((label.toList.take 1).all fun c => c.isAlpha || c == '_')
      && ((label.toList.drop 1).all fun c => c.isAlphanum || c == '_')
      && (g.basic_blocks_labels.all fun l => l != label)
      && (label != RETURN_LABEL) then
    let index := g.basic_blocks.length
    some ({ g with
            basic_blocks_labels := g.basic_blocks_labels ++ [label]
            basic_blocks := g.basic_blocks ++
              [{ invs := invs, stmt := stmt, successor := Successor.unreachable }] },
          { method_uuid := g.uuid, block_index := index })
  else
    none

/-- `CfgMethod::set_successor`.  The source first `assert_eq!`s the token's
graph identity, then writes `self.basic_blocks[index.block_index].successor`,
which panics when the position is out of bounds. -/
def set_successor (g : CfgMethod) (index : CfgBlockIndex) (successor : Successor) :
    Option CfgMethod :=
  if g.uuid = index.method_uuid then
    match g.basic_blocks.get? index.block_index with
    | some b =>
        some { g with
               basic_blocks := g.basic_blocks.set index.block_index
                 { b with successor := successor } }
    | none => none
  else
    none

end CfgMethod

/-- `fn index_to_label` — `basic_block_labels[index].clone()`, with the
potential panic made explicit as `none`. -/
def index_to_label (basic_block_labels : List String) (index : Nat) : Option String :=
  basic_block_labels.get? index

/-- `fn return_label`. -/
def return_label : String := RETURN_LABEL

/-- The `for` loop inside `successor_to_ast`'s `GotoSwitch` arm: for each
`(test, target)` pair in order, push `if test then goto target-label else
skip` (where `skip` is the empty `seqn`). -/
def lowerArms (basic_block_labels : List String) :
    List (Expr × CfgBlockIndex) → Option (List Stmt)
  | [] => some []
  | (test, target) :: rest =>
      match index_to_label basic_block_labels target.block_index,
            lowerArms basic_block_labels rest with
      | some l, some ss =>
          some (Stmt.ifStmt test (Stmt.goto l) (Stmt.seqn [] []) :: ss)
      | _, _ => none

/-- `fn successor_to_ast` — lowers one successor edge to a statement. -/
def successor_to_ast (basic_block_labels : List String) (successor : Successor) :
    Option Stmt :=
  match successor with
  | Successor.unreachable =>
      some (Stmt.assertStmt Expr.falseLit Position.noPosition)
  | Successor.ret =>
      some (Stmt.goto return_label)
  | Successor.goto target =>
      (index_to_label basic_block_labels target.block_index).map Stmt.goto
  | Successor.gotoSwitch successors default_target =>
      match lowerArms basic_block_labels successors,
            index_to_label basic_block_labels default_target.block_index with
      | some stmts, some dl => some (Stmt.seqn (stmts ++ [Stmt.goto dl]) [])
      | _, _ => none
  | Successor.gotoIf test then_target else_target =>
      match index_to_label basic_block_labels then_target.block_index,
            index_to_label basic_block_labels else_target.block_index with
      | some tl, some el => some (Stmt.ifStmt test (Stmt.goto tl) (Stmt.goto el))
      | _, _ => none

/-- `fn block_to_ast` — label marker (with invariants), body, lowered
successor, wrapped in a `seqn`. -/
def block_to_ast (basic_block_labels : List String) (block : CfgBlock) (index : Nat) :
    Option Stmt :=
  match index_to_label basic_block_labels index,
        successor_to_ast basic_block_labels block.successor with
  | some l, some s =>
      some (Stmt.seqn [Stmt.label l block.invs, block.stmt, s] [])
  | _, _ => none

/-- The per-block part of the `to_ast` loop: for each `(index, block)` pair
in order, push `block_to_ast` onto the statement list and a label
declaration onto the declaration list. -/
def lowerBlocks (basic_block_labels : List String) :
    List (Nat × CfgBlock) → Option (List Stmt × List Declaration)
  | [] => some ([], [])
  | (i, b) :: rest =>
      match block_to_ast basic_block_labels b i,
            index_to_label basic_block_labels i,
            lowerBlocks basic_block_labels rest with
      | some s, some l, some (ss, ds) =>
          some (s :: ss, Declaration.labelDecl l [] :: ds)
      | _, _, _ => none

/-- `CfgMethod::to_ast` — locals first, then the per-block loop, then the
terminal `return` label appended to both the statement and the declaration
lists, all wrapped in one `seqn` that becomes the method body. -/
def CfgMethod.to_ast (g : CfgMethod) : Option Method :=
  match lowerBlocks g.basic_blocks_labels g.basic_blocks.enum with
  | none => none
  | some (blocks_ast, block_decls) =>
      let declarations := g.local_vars.map Declaration.localVar
        ++ block_decls ++ [Declaration.labelDecl return_label []]
      let body := Stmt.seqn (blocks_ast ++ [Stmt.label return_label []]) declarations
      some { name := g.method_name
             formalArgs := g.formal_args
             formalReturns := g.formal_returns
             pres := []
             posts := []
             body := some body }

/-! ## Semantics of the emission target

The lowering's correctness argument (spec §4.2) relies on the emitted
statement form having genuine non-local jump semantics: executing a `seqn`
runs its statements in order until some statement transfers control via a
`goto`.  `jumpOf` computes, for a statement that only falls through or
jumps (labels, bodies and assertions fall through), which label receives
control, `none` meaning fall-through past the end. -/

/-- Truth value of a condition under an environment assigning truth values
to the opaque atoms; the literal `false` is always false. -/
def evalExpr (env : Nat → Bool) : Expr → Bool
  | Expr.falseLit => false
  | Expr.atom n => env n

mutual

/-- The label a statement jumps to, if executing it transfers control. -/
def jumpOf (env : Nat → Bool) : Stmt → Option String
  | Stmt.goto l => some l
  | Stmt.ifStmt c t e => if evalExpr env c then jumpOf env t else jumpOf env e
  | Stmt.seqn ss _ => jumpOfList env ss
  | _ => none

/-- Run statements in order; the first one that jumps wins. -/
def jumpOfList (env : Nat → Bool) : List Stmt → Option String
  | [] => none
  | s :: rest =>
      match jumpOf env s with
      | some l => some l
      | none => jumpOfList env rest

end

/-- Spec side of claim C1: the label of the first pair whose condition holds
under `env`, and the default target's label when none does. -/
def firstMatchLabel (env : Nat → Bool) (labels : List String) :
    List (Expr × CfgBlockIndex) → CfgBlockIndex → String
  | [], d => labels.getD d.block_index ""
  | (c, t) :: rest, d =>
      if evalExpr env c then labels.getD t.block_index ""
      else firstMatchLabel env labels rest d

/-- Spec side of the label discipline: the lexical rule of the spec, "starts
with a letter or underscore, continues with letters, digits or underscores";
an empty string has no starting letter or underscore, so it violates the
rule. -/
def specValidLabel (label : String) : Bool :=
  (match label.toList with
   | [] => false
   | c :: _ => c.isAlpha || c == '_')
  && ((label.toList.drop 1).all fun c => c.isAlphanum || c == '_')

/-- Recognizer for label declarations in the emitted declaration list. -/
def isLabelDecl : Declaration → Bool
  | Declaration.labelDecl _ _ => true
  | _ => false

/-- Recognizer for local-variable declarations in the emitted declaration
list. -/
def isLocalDecl : Declaration → Bool
  | Declaration.localVar _ => true
  | _ => false

/-- Bounds demanded of a stored successor by the lookups `to_ast` performs:
every target position it mentions must be a valid block position. -/
def succTargetsOk (n : Nat) : Successor → Bool
  | Successor.unreachable => true
  | Successor.ret => true
  | Successor.goto t => decide (t.block_index < n)
  | Successor.gotoSwitch ps d =>
      (ps.all fun p => decide (p.2.block_index < n)) && decide (d.block_index < n)
  | Successor.gotoIf _ t e =>
      decide (t.block_index < n) && decide (e.block_index < n)

/-- A well-formed graph: label and block sequences aligned (an invariant of
the builder), and every stored successor targets a valid block position —
which holds for graphs built only through the public API, since every token
minted by this graph has a position below the block count. -/
def wellFormed (g : CfgMethod) : Prop :=
  g.basic_blocks_labels.length = g.basic_blocks.length
  ∧ ∀ b ∈ g.basic_blocks, succTargetsOk g.basic_blocks.length b.successor = true

/-- One successful mutation of a builder through its public API: a
successful `add_block` or a successful `set_successor`. -/
inductive BuilderStep : CfgMethod → CfgMethod → Prop where
  | addBlock (g g' : CfgMethod) (label : String) (invs : List Expr)
      (stmt : Stmt) (t : CfgBlockIndex)
      (h : g.add_block label invs stmt = some (g', t)) : BuilderStep g g'
  | setSuccessor (g g' : CfgMethod) (t : CfgBlockIndex) (s : Successor)
      (h : g.set_successor t s = some g') : BuilderStep g g'

/-- A builder state reachable from another by any sequence of successful
public API calls. -/
def BuilderEvolves : CfgMethod → CfgMethod → Prop :=
  Relation.ReflTransGen BuilderStep

/-- A one-block sample graph used to instantiate theorems with hypotheses. -/
def sampleBlock : CfgBlock :=
  { invs := [], stmt := Stmt.opaqueStmt 0, successor := Successor.unreachable }

def sampleG : CfgMethod :=
  { uuid := 5, method_name := "m", formal_args := [], formal_returns := []
    local_vars := [], basic_blocks := [sampleBlock], basic_blocks_labels := ["a"] }

def sampleG1 : CfgMethod :=
  { sampleG with basic_blocks := [{ sampleBlock with successor := Successor.ret }] }

lemma index_to_label_eq_getD (labels : List String) (i : Nat)
    (h : i < labels.length) :
    index_to_label labels i = some (labels.getD i "") := by
  unfold index_to_label
  rw [List.get?_eq_getElem?, List.getElem?_eq_getElem h]
  simp [List.getD_eq_getElem?_getD, List.getElem?_eq_getElem h]

lemma lowerArms_eq_map (labels : List String) :
    ∀ ps : List (Expr × CfgBlockIndex),
      (∀ p ∈ ps, p.2.block_index < labels.length) →
      lowerArms labels ps
        = some (ps.map fun p =>
            Stmt.ifStmt p.1 (Stmt.goto (labels.getD p.2.block_index ""))
              (Stmt.seqn [] [])) := by
  intro ps
  induction ps with
  | nil => intro _; rfl
  | cons p rest ih =>
      intro hp
      have hhd : p.2.block_index < labels.length := hp p (List.mem_cons_self p rest)
      have htl := ih fun q hq => hp q (List.mem_cons_of_mem p hq)
      obtain ⟨c, t⟩ := p
      simp [lowerArms, index_to_label_eq_getD labels _ hhd, htl]

lemma jumpOfList_switch (env : Nat → Bool) (labels : List String) :
    ∀ (ps : List (Expr × CfgBlockIndex)) (d : CfgBlockIndex),
      jumpOfList env
          ((ps.map fun p =>
              Stmt.ifStmt p.1 (Stmt.goto (labels.getD p.2.block_index ""))
                (Stmt.seqn [] [])) ++ [Stmt.goto (labels.getD d.block_index "")])
        = some (firstMatchLabel env labels ps d) := by
  intro ps
  induction ps with
  | nil => intro d; simp [jumpOfList, jumpOf, firstMatchLabel]
  | cons p rest ih =>
      intro d
      obtain ⟨c, t⟩ := p
      by_cases hc : evalExpr env c
      · simp [jumpOfList, jumpOf, firstMatchLabel, hc]
      · simpa [jumpOfList, jumpOf, firstMatchLabel, hc,
          List.getD_eq_getElem?_getD] using ih d

/-- C1: lowering a `GotoSwitch(pairs, default)` successor emits exactly one
one-armed conditional per pair, in list order (`if condition_i then goto
target_i's label else skip`), followed by one unconditional `goto` to the
default's label; under the jump semantics of the emission target, the label
receiving control is that of the first pair whose condition holds (the
default's when none does) — first-match-wins. -/
theorem gotoSwitch_lowering_first_match_wins (labels : List String)
    (pairs : List (Expr × CfgBlockIndex)) (d : CfgBlockIndex)
    (hd : d.block_index < labels.length)
    (hp : ∀ p ∈ pairs, p.2.block_index < labels.length) :
    successor_to_ast labels (Successor.gotoSwitch pairs d)
      = some (Stmt.seqn
          ((pairs.map fun p =>
              Stmt.ifStmt p.1 (Stmt.goto (labels.getD p.2.block_index ""))
                (Stmt.seqn [] [])) ++ [Stmt.goto (labels.getD d.block_index "")]) [])
    ∧ ∀ env : Nat → Bool,
        jumpOf env (Stmt.seqn
          ((pairs.map fun p =>
              Stmt.ifStmt p.1 (Stmt.goto (labels.getD p.2.block_index ""))
                (Stmt.seqn [] [])) ++ [Stmt.goto (labels.getD d.block_index "")]) [])
          = some (firstMatchLabel env labels pairs d) := by
  constructor
  · simp [successor_to_ast, lowerArms_eq_map labels pairs hp,
      index_to_label_eq_getD labels _ hd]
  · intro env
    simpa [jumpOf, List.getD_eq_getElem?_getD]
      using jumpOfList_switch env labels pairs d

/-! ## Builder lemmas -/

lemma add_block_some (g : CfgMethod) (label : String) (invs : List Expr)
    (stmt : Stmt) (g1 : CfgMethod) (t : CfgBlockIndex)
    (h : g.add_block label invs stmt = some (g1, t)) :
    g1 = { g with
           basic_blocks_labels := g.basic_blocks_labels ++ [label]
           basic_blocks := g.basic_blocks ++
             [{ invs := invs, stmt := stmt, successor := Successor.unreachable }] }
    ∧ t = { method_uuid := g.uuid, block_index := g.basic_blocks.length } := by
  unfold CfgMethod.add_block at h
  split at h
  · rw [Option.some.injEq, Prod.mk.injEq] at h
    exact ⟨h.1.symm, h.2.symm⟩
  · exact Option.noConfusion h

/-- C2: a token minted by `add_block` on graph `g` carries `g`'s identity, so
applying `set_successor` to any graph `g2` with a different identity trips
the `assert_eq!` on the token's graph identity and aborts (`none`); an
aborted call produces no post-state, so `g2` is left unchanged. -/
theorem set_successor_cross_graph_fails (g g2 : CfgMethod) (label : String)
    (invs : List Expr) (stmt : Stmt) (g1 : CfgMethod) (t : CfgBlockIndex)
    (s : Successor) (hne : g2.uuid ≠ g.uuid)
    (hadd : g.add_block label invs stmt = some (g1, t)) :
    g2.set_successor t s = none := by
  obtain ⟨-, ht⟩ := add_block_some g label invs stmt g1 t hadd
  simp [CfgMethod.set_successor, ht, hne]

/-- Witness for C2 at concrete graphs with identities 1 and 0. -/
theorem set_successor_cross_graph_fails_witness :
    (CfgMethod.new 1 "other" [] [] []).set_successor
        { method_uuid := 0, block_index := 0 } Successor.ret = none :=
  set_successor_cross_graph_fails (CfgMethod.new 0 "m" [] [] [])
    (CfgMethod.new 1 "other" [] [] []) "a" [] (Stmt.seqn [] [])
    { uuid := 0, method_name := "m", formal_args := [], formal_returns := []
      local_vars := []
      basic_blocks := [{ invs := [], stmt := Stmt.seqn [] []
                         successor := Successor.unreachable }]
      basic_blocks_labels := ["a"] }
    { method_uuid := 0, block_index := 0 } Successor.ret
    (by decide) (by rfl)

/-- Witness for C1 at a concrete graph: two labels, one guarded pair, one
default target. -/
theorem gotoSwitch_lowering_first_match_wins_witness :
    successor_to_ast ["a", "b"]
        (Successor.gotoSwitch [(Expr.atom 0, { method_uuid := 7, block_index := 0 })]
          { method_uuid := 7, block_index := 1 })
      = some (Stmt.seqn
          (([(Expr.atom 0, ({ method_uuid := 7, block_index := 0 } : CfgBlockIndex))].map
              fun p =>
              Stmt.ifStmt p.1 (Stmt.goto ((["a", "b"] : List String).getD p.2.block_index ""))
                (Stmt.seqn [] []))
            ++ [Stmt.goto ((["a", "b"] : List String).getD 1 "")]) [])
    ∧ ∀ env : Nat → Bool,
        jumpOf env (Stmt.seqn
          (([(Expr.atom 0, ({ method_uuid := 7, block_index := 0 } : CfgBlockIndex))].map
              fun p =>
              Stmt.ifStmt p.1 (Stmt.goto ((["a", "b"] : List String).getD p.2.block_index ""))
                (Stmt.seqn [] []))
            ++ [Stmt.goto ((["a", "b"] : List String).getD 1 "")]) [])
          = some (firstMatchLabel env ["a", "b"]
              [(Expr.atom 0, { method_uuid := 7, block_index := 0 })]
              { method_uuid := 7, block_index := 1 }) :=
  gotoSwitch_lowering_first_match_wins ["a", "b"]
    [(Expr.atom 0, { method_uuid := 7, block_index := 0 })]
    { method_uuid := 7, block_index := 1 } (by decide) (by decide)

/-- C4: with a label satisfying the lexical rule, fresh in this graph and
distinct from the reserved terminal label, `add_block` succeeds, appends
exactly one block whose successor is `Unreachable`, registers exactly one
label, and returns a token whose position is the pre-insertion block count
and whose graph identity is this builder's; every other field of the graph
is unchanged (the equality pins down the entire post-state). -/
theorem add_block_success (g : CfgMethod) (label : String) (invs : List Expr)
    (stmt : Stmt) (hv : specValidLabel label = true)
    (hfresh : label ∉ g.basic_blocks_labels) (hres : label ≠ RETURN_LABEL) :
    g.add_block label invs stmt
      = some ({ g with
                basic_blocks_labels := g.basic_blocks_labels ++ [label]
                basic_blocks := g.basic_blocks ++
                  [{ invs := invs, stmt := stmt
                     successor := Successor.unreachable }] },
              { method_uuid := g.uuid, block_index := g.basic_blocks.length }) := by
  unfold specValidLabel at hv
  rw [Bool.and_eq_true] at hv
  obtain ⟨hv1, hv2⟩ := hv
  unfold CfgMethod.add_block
  rw [if_pos]
  rw [Bool.and_eq_true, Bool.and_eq_true, Bool.and_eq_true]
  refine ⟨⟨⟨?_, hv2⟩, ?_⟩, ?_⟩
  · cases hl : label.toList with
    | nil => simp
    | cons c cs => rw [hl] at hv1; simpa using hv1
  · simp only [List.all_eq_true]
    intro l hl
    simp only [bne_iff_ne, ne_eq]
    exact fun he => hfresh (he ▸ hl)
  · simpa using hres

/-- Witness for C4: adding "b" to a one-block graph already holding "a". -/
theorem add_block_success_witness :
    ({ uuid := 3, method_name := "m", formal_args := [], formal_returns := []
       local_vars := []
       basic_blocks := [{ invs := [], stmt := Stmt.opaqueStmt 0
                          successor := Successor.ret }]
       basic_blocks_labels := ["a"] } : CfgMethod).add_block "b" [] (Stmt.opaqueStmt 1)
      = some ({ uuid := 3, method_name := "m", formal_args := [], formal_returns := []
                local_vars := []
                basic_blocks := [{ invs := [], stmt := Stmt.opaqueStmt 0
                                   successor := Successor.ret },
                                 { invs := [], stmt := Stmt.opaqueStmt 1
                                   successor := Successor.unreachable }]
                basic_blocks_labels := ["a", "b"] },
              { method_uuid := 3, block_index := 1 }) :=
  add_block_success
    { uuid := 3, method_name := "m", formal_args := [], formal_returns := []
      local_vars := []
      basic_blocks := [{ invs := [], stmt := Stmt.opaqueStmt 0
                         successor := Successor.ret }]
      basic_blocks_labels := ["a"] } "b" [] (Stmt.opaqueStmt 1)
    (by decide) (by decide) (by decide)

/-- C5: `add_block` with a label already registered in this graph, or equal
to the reserved terminal label "return", aborts (`none`); an aborted call
produces no post-state, so the block and label sequences are exactly as
before the call. -/
theorem add_block_duplicate_or_reserved_fails (g : CfgMethod) (label : String)
    (invs : List Expr) (stmt : Stmt)
    (h : label ∈ g.basic_blocks_labels ∨ label = RETURN_LABEL) :
    g.add_block label invs stmt = none := by
  unfold CfgMethod.add_block
  rw [if_neg]
  intro hc
  rw [Bool.and_eq_true, Bool.and_eq_true, Bool.and_eq_true] at hc
  rcases h with h | h
  · have hall := hc.1.2
    rw [List.all_eq_true] at hall
    have h2 := hall label h
    simp at h2
  · exact absurd h (by simpa using hc.2)

/-- Witness for C5: adding "loop" twice, and adding "return". -/
theorem add_block_duplicate_or_reserved_fails_witness :
    ({ uuid := 0, method_name := "m", formal_args := [], formal_returns := []
       local_vars := []
       basic_blocks := [{ invs := [], stmt := Stmt.opaqueStmt 0
                          successor := Successor.unreachable }]
       basic_blocks_labels := ["loop"] } : CfgMethod).add_block "loop" []
        (Stmt.opaqueStmt 1) = none
    ∧ (CfgMethod.new 0 "m" [] [] []).add_block "return" [] (Stmt.opaqueStmt 0)
        = none :=
  ⟨add_block_duplicate_or_reserved_fails _ "loop" [] (Stmt.opaqueStmt 1)
      (Or.inl (by decide)),
   add_block_duplicate_or_reserved_fails _ "return" [] (Stmt.opaqueStmt 0)
      (Or.inr (by decide))⟩

/-- Counterexample to C3 as stated: the empty string violates the lexical
rule (it does not start with a letter or underscore), yet `add_block` with
the empty label succeeds and mutates the graph, because the source checks
`label.chars().take(1).all(..)`, which is vacuously true on "". -/
theorem add_block_empty_label_accepted :
    specValidLabel "" = false
    ∧ (CfgMethod.new 0 "m" [] [] []).add_block "" [] (Stmt.seqn [] [])
      = some ({ uuid := 0, method_name := "m", formal_args := []
                formal_returns := [], local_vars := []
                basic_blocks := [{ invs := [], stmt := Stmt.seqn [] []
                                   successor := Successor.unreachable }]
                basic_blocks_labels := [""] },
              { method_uuid := 0, block_index := 0 }) :=
  ⟨rfl, rfl⟩

/-- C3 as amended: for every nonempty label violating the lexical rule —
its first character is not a letter or underscore, or some later character
is not a letter, digit or underscore — `add_block` aborts (`none`), hence
performs no mutation.  (The empty string, though it violates the rule, is
accepted by the code; see the counterexample.) -/
theorem add_block_invalid_nonempty_label_fails (g : CfgMethod) (label : String)
    (invs : List Expr) (stmt : Stmt) (hne : label.toList ≠ [])
    (hbad : specValidLabel label = false) :
    g.add_block label invs stmt = none := by
  unfold CfgMethod.add_block
  rw [if_neg]
  intro hc
  rw [Bool.and_eq_true, Bool.and_eq_true, Bool.and_eq_true] at hc
  unfold specValidLabel at hbad
  rw [Bool.and_eq_false_iff] at hbad
  rcases hbad with hbad | hbad
  · cases hl : label.toList with
    | nil => exact hne hl
    | cons c cs =>
        rw [hl] at hbad
        have h2 := hc.1.1.1
        rw [hl] at h2
        simp at h2 hbad
        rcases h2 with h2 | h2
        · rw [h2] at hbad
          simp at hbad
        · exact hbad.2 h2
  · rw [hc.1.1.2] at hbad
    simp at hbad

/-- Witness for the amended C3: the label "1x" starts with a digit. -/
theorem add_block_invalid_nonempty_label_fails_witness :
    (CfgMethod.new 0 "m" [] [] []).add_block "1x" [] (Stmt.opaqueStmt 0) = none :=
  add_block_invalid_nonempty_label_fails (CfgMethod.new 0 "m" [] [] []) "1x" []
    (Stmt.opaqueStmt 0) (by decide) (by decide)

/-- C6: a successful `set_successor` changes only the successor of the block
at the token's position: identity, name, formals, returns, locals, the
label sequence, the block count and every other block are unchanged; and a
second call on the same token with successor `s2` produces exactly the
state obtained by a single call with `s2` (last write wins) — since
lowering is a function of that state, only `s2` is observable in the
lowered output. -/
theorem set_successor_frame_last_write_wins (g : CfgMethod) (t : CfgBlockIndex)
    (s s2 : Successor) (g1 : CfgMethod)
    (h : g.set_successor t s = some g1) :
    g1.uuid = g.uuid ∧ g1.method_name = g.method_name
    ∧ g1.formal_args = g.formal_args ∧ g1.formal_returns = g.formal_returns
    ∧ g1.local_vars = g.local_vars
    ∧ g1.basic_blocks_labels = g.basic_blocks_labels
    ∧ g1.basic_blocks.length = g.basic_blocks.length
    ∧ (∀ i, i ≠ t.block_index → g1.basic_blocks.get? i = g.basic_blocks.get? i)
    ∧ (∃ b, g.basic_blocks.get? t.block_index = some b
        ∧ g1.basic_blocks.get? t.block_index = some { b with successor := s })
    ∧ g1.set_successor t s2 = g.set_successor t s2 := by
  unfold CfgMethod.set_successor at h
  split at h
  case isFalse => exact Option.noConfusion h
  case isTrue huu =>
    split at h
    case h_2 => exact Option.noConfusion h
    case h_1 b hb =>
      rw [Option.some.injEq] at h
      subst h
      obtain ⟨hlt, -⟩ := List.get?_eq_some.mp hb
      refine ⟨rfl, rfl, rfl, rfl, rfl, rfl, List.length_set .., ?_, ⟨b, hb, ?_⟩, ?_⟩
      · intro i hi
        exact List.get?_set_ne _ _ (fun he => hi he.symm)
      · exact List.get?_set_eq_of_lt _ hlt
      · unfold CfgMethod.set_successor
        rw [if_pos huu, if_pos huu]
        simp only [List.get?_set_eq_of_lt _ hlt, hb, List.set_set]

/-- Witness for C6 on the one-block sample graph. -/
theorem set_successor_frame_last_write_wins_witness :
    sampleG1.uuid = sampleG.uuid ∧ sampleG1.method_name = sampleG.method_name
    ∧ sampleG1.formal_args = sampleG.formal_args
    ∧ sampleG1.formal_returns = sampleG.formal_returns
    ∧ sampleG1.local_vars = sampleG.local_vars
    ∧ sampleG1.basic_blocks_labels = sampleG.basic_blocks_labels
    ∧ sampleG1.basic_blocks.length = sampleG.basic_blocks.length
    ∧ (∀ i, i ≠ (({ method_uuid := 5, block_index := 0 } : CfgBlockIndex)).block_index →
        sampleG1.basic_blocks.get? i = sampleG.basic_blocks.get? i)
    ∧ (∃ b, sampleG.basic_blocks.get? 0 = some b
        ∧ sampleG1.basic_blocks.get? 0 = some { b with successor := Successor.ret })
    ∧ sampleG1.set_successor { method_uuid := 5, block_index := 0 } Successor.unreachable
        = sampleG.set_successor { method_uuid := 5, block_index := 0 } Successor.unreachable :=
  set_successor_frame_last_write_wins sampleG { method_uuid := 5, block_index := 0 }
    Successor.ret Successor.unreachable sampleG1 (by rfl)

/-- C8: lowering is a pure function of the graph's observable final state —
two graphs agreeing on name, formals, returns, locals, blocks (labels,
invariants, bodies and successors) lower identically even when their graph
identities differ; in particular, `to_ast` being a function, lowering the
same fully-constructed graph twice yields identical structured output. -/
theorem to_ast_depends_only_on_state (g1 g2 : CfgMethod)
    (hn : g1.method_name = g2.method_name)
    (ha : g1.formal_args = g2.formal_args)
    (hr : g1.formal_returns = g2.formal_returns)
    (hl : g1.local_vars = g2.local_vars)
    (hb : g1.basic_blocks = g2.basic_blocks)
    (hlb : g1.basic_blocks_labels = g2.basic_blocks_labels) :
    g1.to_ast = g2.to_ast := by
  obtain ⟨u1, n1, a1, r1, l1, b1, lb1⟩ := g1
  obtain ⟨u2, n2, a2, r2, l2, b2, lb2⟩ := g2
  dsimp only at hn ha hr hl hb hlb
  subst hn; subst ha; subst hr; subst hl; subst hb; subst hlb
  rfl

/-- Witness for C8: the sample graph and a copy of it with a different
graph identity lower identically. -/
theorem to_ast_depends_only_on_state_witness :
    sampleG.to_ast = ({ sampleG with uuid := 9 } : CfgMethod).to_ast :=
  to_ast_depends_only_on_state sampleG { sampleG with uuid := 9 }
    rfl rfl rfl rfl rfl rfl

lemma lowerBlocks_spec (labels : List String) :
    ∀ (l : List (Nat × CfgBlock)) (ss : List Stmt) (ds : List Declaration),
      lowerBlocks labels l = some (ss, ds) →
      ss.length = l.length
      ∧ ds.length = l.length
      ∧ (∀ d ∈ ds, isLabelDecl d = true)
      ∧ ∀ k, ss.get? k = (l.get? k).bind fun ib => block_to_ast labels ib.2 ib.1 := by
  intro l
  induction l with
  | nil =>
      intro ss ds h
      unfold lowerBlocks at h
      rw [Option.some.injEq, Prod.mk.injEq] at h
      obtain ⟨h1, h2⟩ := h
      subst h1; subst h2
      exact ⟨rfl, rfl, by simp, by simp⟩
  | cons ib rest ih =>
      intro ss ds h
      obtain ⟨i, b⟩ := ib
      unfold lowerBlocks at h
      split at h
      case h_2 => exact Option.noConfusion h
      case h_1 s l0 ss0 ds0 hs hl hrest =>
        rw [Option.some.injEq, Prod.mk.injEq] at h
        obtain ⟨h1, h2⟩ := h
        subst h1; subst h2
        obtain ⟨ih1, ih2, ih3, ih4⟩ := ih ss0 ds0 hrest
        refine ⟨by simp [ih1], by simp [ih2], ?_, ?_⟩
        · intro d hd
          rcases List.mem_cons.mp hd with hd | hd
          · subst hd; rfl
          · exact ih3 d hd
        · intro k
          cases k with
          | zero => simpa using hs.symm
          | succ k => simpa using ih4 k

/-- C7: for every graph whose lowering succeeds, the lowered body is one
`seqn` whose declaration list contains exactly `number of blocks + 1` label
declarations (one per block plus the reserved terminal label) and exactly
one local declaration per graph local; the statement list has one entry per
block plus the terminal label marker, and its `k`-th entry is the lowering
of the `k`-th block — blocks are emitted in creation order. -/
theorem to_ast_output_shape (g : CfgMethod) (m : Method) (h : g.to_ast = some m) :
    ∃ bs ds, m.body = some (Stmt.seqn bs ds)
      ∧ (ds.filter isLabelDecl).length = g.basic_blocks.length + 1
      ∧ (ds.filter isLocalDecl).length = g.local_vars.length
      ∧ bs.length = g.basic_blocks.length + 1
      ∧ ∀ k, k < g.basic_blocks.length →
          bs.get? k = (g.basic_blocks.get? k).bind fun b =>
            block_to_ast g.basic_blocks_labels b k := by
  unfold CfgMethod.to_ast at h
  split at h
  case h_1 => exact Option.noConfusion h
  case h_2 ba bd heq =>
    dsimp only at h
    rw [Option.some.injEq] at h
    subst h
    obtain ⟨h1, h2, h3, h4⟩ := lowerBlocks_spec g.basic_blocks_labels _ ba bd heq
    rw [List.enum_length] at h1 h2
    refine ⟨ba ++ [Stmt.label return_label []],
      g.local_vars.map Declaration.localVar ++ bd
        ++ [Declaration.labelDecl return_label []],
      rfl, ?_, ?_, ?_, ?_⟩
    · rw [List.filter_append, List.filter_append]
      rw [List.filter_eq_nil.mpr (by intro a ha; obtain ⟨d, -, rfl⟩ := List.mem_map.mp ha; simp [isLabelDecl])]
      rw [List.filter_eq_self.mpr h3]
      simp [isLabelDecl, h2]
    · rw [List.filter_append, List.filter_append]
      rw [List.filter_eq_self.mpr (by intro a ha; obtain ⟨d, -, rfl⟩ := List.mem_map.mp ha; simp [isLocalDecl])]
      rw [List.filter_eq_nil.mpr (by intro a ha; have := h3 a ha; cases a <;> simp_all [isLabelDecl, isLocalDecl])]
      simp [isLocalDecl]
    · simp [h1]
    · intro k hk
      have hk' : k < ba.length := h1 ▸ hk
      rw [List.get?_append hk', h4 k, List.get?_enum]
      cases hbk : g.basic_blocks.get? k <;> simp [hbk]

/-- Witness for C7 on the one-block sample graph. -/
theorem to_ast_output_shape_witness :
    ∃ bs ds, (({ name := "m", formalArgs := [], formalReturns := [],
                 pres := [], posts := [],
                 body := some (Stmt.seqn
                   [Stmt.seqn [Stmt.label "a" [], Stmt.opaqueStmt 0,
                       Stmt.assertStmt Expr.falseLit Position.noPosition] [],
                    Stmt.label "return" []]
                   [Declaration.labelDecl "a" [],
                    Declaration.labelDecl "return" []]) } : Method)).body
        = some (Stmt.seqn bs ds)
      ∧ (ds.filter isLabelDecl).length = sampleG.basic_blocks.length + 1
      ∧ (ds.filter isLocalDecl).length = sampleG.local_vars.length
      ∧ bs.length = sampleG.basic_blocks.length + 1
      ∧ ∀ k, k < sampleG.basic_blocks.length →
          bs.get? k = (sampleG.basic_blocks.get? k).bind fun b =>
            block_to_ast sampleG.basic_blocks_labels b k :=
  to_ast_output_shape sampleG _ (by rfl)

lemma successor_to_ast_total (labels : List String) (s : Successor)
    (h : succTargetsOk labels.length s = true) :
    (successor_to_ast labels s).isSome = true := by
  cases s with
  | unreachable => rfl
  | ret => rfl
  | goto t =>
      simp only [succTargetsOk, decide_eq_true_eq] at h
      simp [successor_to_ast, index_to_label_eq_getD labels _ h]
  | gotoSwitch ps d =>
      simp only [succTargetsOk, Bool.and_eq_true, List.all_eq_true,
        decide_eq_true_eq] at h
      obtain ⟨hp, hd⟩ := h
      simp [successor_to_ast, lowerArms_eq_map labels ps hp,
        index_to_label_eq_getD labels _ hd]
  | gotoIf c t e =>
      simp only [succTargetsOk, Bool.and_eq_true, decide_eq_true_eq] at h
      simp [successor_to_ast, index_to_label_eq_getD labels _ h.1,
        index_to_label_eq_getD labels _ h.2]

lemma block_to_ast_total (labels : List String) (b : CfgBlock) (i : Nat)
    (hi : i < labels.length)
    (hs : succTargetsOk labels.length b.successor = true) :
    (block_to_ast labels b i).isSome = true := by
  obtain ⟨st, hst⟩ := Option.isSome_iff_exists.mp
    (successor_to_ast_total labels b.successor hs)
  simp [block_to_ast, index_to_label_eq_getD labels _ hi, hst]

lemma lowerBlocks_total (labels : List String) :
    ∀ l : List (Nat × CfgBlock),
      (∀ p ∈ l, p.1 < labels.length
        ∧ succTargetsOk labels.length p.2.successor = true) →
      (lowerBlocks labels l).isSome = true := by
  intro l
  induction l with
  | nil => exact fun _ => rfl
  | cons p rest ih =>
      intro hall
      obtain ⟨i, b⟩ := p
      obtain ⟨hi, hs⟩ := hall (i, b) (List.mem_cons_self _ _)
      obtain ⟨st, hst⟩ := Option.isSome_iff_exists.mp
        (block_to_ast_total labels b i hi hs)
      obtain ⟨⟨ss, ds⟩, hr⟩ := Option.isSome_iff_exists.mp
        (ih fun q hq => hall q (List.mem_cons_of_mem _ hq))
      simp [lowerBlocks, hst, index_to_label_eq_getD labels _ hi, hr]

/-- C9: on a well-formed graph the lowering is total — `to_ast` returns a
method (in Rust, the `Ok` branch; the model's `none` marks the only
possible abort, an out-of-bounds label lookup in `index_to_label`), so no
internal label resolution by block position can fail. -/
theorem to_ast_total_on_wellformed (g : CfgMethod) (h : wellFormed g) :
    ∃ m, g.to_ast = some m := by
  obtain ⟨hlen, hsucc⟩ := h
  have hall : ∀ p ∈ g.basic_blocks.enum,
      p.1 < g.basic_blocks_labels.length
      ∧ succTargetsOk g.basic_blocks_labels.length p.2.successor = true := by
    intro p hp
    have hg : g.basic_blocks.get? p.1 = some p.2 := by
      have := List.mem_enum_iff_get?.mp hp
      simpa using this
    obtain ⟨hlt, -⟩ := List.get?_eq_some.mp hg
    have hmem : p.2 ∈ g.basic_blocks := List.get?_mem hg
    rw [hlen]
    exact ⟨hlt, hsucc p.2 hmem⟩
  obtain ⟨⟨ba, bd⟩, hlb⟩ := Option.isSome_iff_exists.mp
    (lowerBlocks_total g.basic_blocks_labels _ hall)
  rw [← Option.isSome_iff_exists]
  unfold CfgMethod.to_ast
  rw [hlb]
  rfl

/-- Witness for C9 on the one-block sample graph. -/
theorem to_ast_total_on_wellformed_witness :
    ∃ m, sampleG.to_ast = some m :=
  to_ast_total_on_wellformed sampleG ⟨by decide, by decide⟩

lemma builderStep_length_mono {g g' : CfgMethod} (h : BuilderStep g g') :
    g.basic_blocks.length ≤ g'.basic_blocks.length := by
  cases h with
  | addBlock label invs stmt t hab =>
      obtain ⟨hg, -⟩ := add_block_some _ _ _ _ _ _ hab
      subst hg
      simp
  | setSuccessor t s hs =>
      unfold CfgMethod.set_successor at hs
      split at hs
      case isFalse => exact Option.noConfusion hs
      case isTrue =>
        split at hs
        case h_2 => exact Option.noConfusion hs
        case h_1 b hb =>
          rw [Option.some.injEq] at hs
          subst hs
          simp

lemma builderEvolves_length_mono {g g' : CfgMethod} (h : BuilderEvolves g g') :
    g.basic_blocks.length ≤ g'.basic_blocks.length := by
  induction h with
  | refl => exact le_rfl
  | tail _ hstep ih => exact le_trans ih (builderStep_length_mono hstep)

/-- C10: a token minted by `add_block` has position equal to the
pre-insertion block count, hence below the block count immediately after the
call; the block count never decreases under any later sequence of public
API calls (blocks are only appended, never removed), so the token's
position stays strictly below the graph's block count at every later point
of the graph's lifetime — both the `set_successor` write and the label
resolution performed during lowering index within bounds. -/
theorem token_position_stays_in_bounds (g g1 g2 : CfgMethod) (label : String)
    (invs : List Expr) (stmt : Stmt) (t : CfgBlockIndex)
    (hadd : g.add_block label invs stmt = some (g1, t))
    (hev : BuilderEvolves g1 g2) :
    t.block_index < g2.basic_blocks.length := by
  obtain ⟨hg, ht⟩ := add_block_some _ _ _ _ _ _ hadd
  have h1 : t.block_index < g1.basic_blocks.length := by
    subst hg
    subst ht
    simp
  exact lt_of_lt_of_le h1 (builderEvolves_length_mono hev)

/-- Witness for C10: mint a token on the empty graph, evolve by one further
`add_block`, and observe the position is still in bounds. -/
theorem token_position_stays_in_bounds_witness :
    ({ method_uuid := 0, block_index := 0 } : CfgBlockIndex).block_index
      < ({ uuid := 0, method_name := "m", formal_args := [], formal_returns := [],
           local_vars := [],
           basic_blocks := [{ invs := [], stmt := Stmt.opaqueStmt 0,
                              successor := Successor.unreachable },
                            { invs := [], stmt := Stmt.opaqueStmt 1,
                              successor := Successor.unreachable }],
           basic_blocks_labels := ["a", "b"] } : CfgMethod).basic_blocks.length :=
  token_position_stays_in_bounds (CfgMethod.new 0 "m" [] [] [])
    { uuid := 0, method_name := "m", formal_args := [], formal_returns := [],
      local_vars := [],
      basic_blocks := [{ invs := [], stmt := Stmt.opaqueStmt 0,
                         successor := Successor.unreachable }],
      basic_blocks_labels := ["a"] }
    { uuid := 0, method_name := "m", formal_args := [], formal_returns := [],
      local_vars := [],
      basic_blocks := [{ invs := [], stmt := Stmt.opaqueStmt 0,
                         successor := Successor.unreachable },
                       { invs := [], stmt := Stmt.opaqueStmt 1,
                         successor := Successor.unreachable }],
      basic_blocks_labels := ["a", "b"] }
    "a" [] (Stmt.opaqueStmt 0) { method_uuid := 0, block_index := 0 }
    (by rfl)
    (Relation.ReflTransGen.single
      (BuilderStep.addBlock _ _ "b" [] (Stmt.opaqueStmt 1)
        { method_uuid := 0, block_index := 1 } (by rfl)))
